import Mathlib

/-!
Shallow embedding of `cls_generator.py`, a generator and reader for the
Clip Studio Paint `.cls` color-set format.

Byte sequences are modelled as `List Nat` (each entry a byte value).
`struct.pack` / `struct.unpack` calls are modelled by `pack16` / `pack32` /
`packColorByte` / `unpack16` / `unpack32` / `unpackRGBA`, including the
range errors `struct.pack` raises (`'H'` requires `0 ≤ n ≤ 65535`, `'I'`
requires `0 ≤ n ≤ 4294967295`, `'B'` requires `0 ≤ n ≤ 255`) and the
`struct.error` that `struct.unpack` raises when the stream is too short,
which surfaces to the caller as a truncation failure.  Falling short on a
plain `f.read(n)` is modelled by `List.take`, which, like Python's `read`,
returns fewer bytes at end of stream without failing.
-/

/-- Result of `max(0, min(255, x))` used on every channel in
`CLSColor.__init__`. -/
def clamp (x : Int) : Int := max 0 (min 255 x)

/-- A single RGBA color (`CLSColor`).  Channels are Python ints. -/
structure CLSColor where
  r : Int
  g : Int
  b : Int
  a : Int
deriving DecidableEq, Repr

/-- The `CLSColor` constructor: every channel is clamped to `[0, 255]`. -/
def CLSColor.make (r g b a : Int) : CLSColor :=
  ⟨clamp r, clamp g, clamp b, clamp a⟩

/-- All four channels lie inside `[0, 255]`. -/
def CLSColor.InRange (c : CLSColor) : Prop :=
  0 ≤ c.r ∧ c.r ≤ 255 ∧ 0 ≤ c.g ∧ c.g ≤ 255 ∧
  0 ≤ c.b ∧ c.b ≤ 255 ∧ 0 ≤ c.a ∧ c.a ≤ 255

instance (c : CLSColor) : Decidable c.InRange := by
  unfold CLSColor.InRange; infer_instance

/-- A palette (`CLSGenerator`): a display name plus an ordered color list. -/
structure CLSGenerator where
  name : String
  colors : List CLSColor
deriving DecidableEq, Repr

/-- `CLSGenerator.__init__`: created with a name and an empty color list. -/
def CLSGenerator.init (name : String) : CLSGenerator := ⟨name, []⟩

/-- `CLSGenerator.add_color`: append `CLSColor(r, g, b, a)`. -/
def CLSGenerator.add_color (gen : CLSGenerator) (r g b : Int) (a : Int := 255) :
    CLSGenerator :=
  { gen with colors := gen.colors ++ [CLSColor.make r g b a] }

/-- Value of one hex digit, as accepted by Python `int(s, 16)`. -/
def hexDigit (c : Char) : Option Nat :=
  if '0' ≤ c ∧ c ≤ '9' then some (c.toNat - '0'.toNat)
  else if 'a' ≤ c ∧ c ≤ 'f' then some (c.toNat - 'a'.toNat + 10)
  else if 'A' ≤ c ∧ c ≤ 'F' then some (c.toNat - 'A'.toNat + 10)
  else none

/-- Value of `int(s, 16)` on a two-character slice of plain hex digits;
`none` models the `ValueError` raised on anything else. -/
def hexPair (c0 c1 : Char) : Option Nat :=
  match hexDigit c0, hexDigit c1 with
  | some h, some l => some (16 * h + l)
  | _, _ => none

/-- `CLSGenerator.add_color_from_hex`: strip every leading `#`
(Python `str.lstrip('#')` removes all leading occurrences), then parse a
6-digit `RRGGBB` or an 8-digit `RRGGBBAA` string; any other length falls
through both branches and returns the palette unchanged.  `none` models a
`ValueError` raised by `int(_, 16)` on a non-hex digit. -/
def CLSGenerator.add_color_from_hex (gen : CLSGenerator) (hex : String)
    (a : Int := 255) : Option CLSGenerator :=
  match hex.data.dropWhile (fun c => c = '#') with
  | [c0, c1, c2, c3, c4, c5] =>
    match hexPair c0 c1, hexPair c2 c3, hexPair c4 c5 with
    | some r, some g, some b => some (gen.add_color r g b a)
    | _, _, _ => none
  | [c0, c1, c2, c3, c4, c5, c6, c7] =>
    match hexPair c0 c1, hexPair c2 c3, hexPair c4 c5, hexPair c6 c7 with
    | some r, some g, some b, some a2 => some (gen.add_color r g b a2)
    | _, _, _, _ => none
  | _ => some gen

/-- `CLSGenerator.add_colors_from_list`: `add_color(r, g, b)` for each
`(r, g, b)` tuple, with the default alpha 255. -/
def CLSGenerator.add_colors_from_list (gen : CLSGenerator)
    (cs : List (Int × Int × Int)) : CLSGenerator :=
  cs.foldl (fun acc t => acc.add_color t.1 t.2.1 t.2.2) gen

/-- `CLSGenerator.clear`: remove all colors. -/
def CLSGenerator.clear (gen : CLSGenerator) : CLSGenerator :=
  { gen with colors := [] }

/-- Python `str.encode('ascii', errors='replace')`: a code point below 128
becomes its own byte, any other character becomes the placeholder byte
`?` (0x3F). -/
def asciiEncode (s : String) : List Nat :=
  s.data.map (fun c => if c.toNat < 128 then c.toNat else 63)

/-- UTF-8 encoding of one scalar value (Python `str.encode('utf-8')`,
per character). -/
def utf8EncodeChar (c : Char) : List Nat :=
  let v := c.toNat
  if v < 0x80 then [v]
  else if v < 0x800 then [0xC0 + v / 64, 0x80 + v % 64]
  else if v < 0x10000 then
    [0xE0 + v / 4096, 0x80 + v / 64 % 64, 0x80 + v % 64]
  else
    [0xF0 + v / 262144, 0x80 + v / 4096 % 64, 0x80 + v / 64 % 64,
     0x80 + v % 64]

/-- Python `str.encode('utf-8')` on a whole string. -/
def utf8Encode (s : String) : List Nat :=
  (s.data.map utf8EncodeChar).flatten

/-- The U+FFFD replacement character substituted by `errors='replace'`. -/
def replChar : Char := Char.ofNat 0xFFFD

/-- One step of the UTF-8 decoder with replacement: given the first byte
and the remaining bytes, return the decoded character and the bytes left.
A well-formed sequence (correct lead byte, in-range continuation bytes, no
overlongs, no surrogates, max U+10FFFF) yields its scalar value; anything
else yields U+FFFD.  On malformed input the granularity is modelled as one
replacement per rejected lead byte; the claims only apply this decoder to
valid UTF-8 produced by `utf8Encode`. -/
def utf8Step (b : Nat) (rest : List Nat) : Char × List Nat :=
  if b < 0x80 then (Char.ofNat b, rest)
  else if 0xC2 ≤ b ∧ b ≤ 0xDF then
    match rest with
    | b1 :: r1 =>
      if 0x80 ≤ b1 ∧ b1 ≤ 0xBF then
        (Char.ofNat ((b - 0xC0) * 64 + (b1 - 0x80)), r1)
      else (replChar, rest)
    | [] => (replChar, [])
  else if 0xE0 ≤ b ∧ b ≤ 0xEF then
    match rest with
    | b1 :: b2 :: r2 =>
      if (0x80 ≤ b1 ∧ b1 ≤ 0xBF) ∧ (0x80 ≤ b2 ∧ b2 ≤ 0xBF) ∧
          (b = 0xE0 → 0xA0 ≤ b1) ∧ (b = 0xED → b1 ≤ 0x9F) then
        (Char.ofNat ((b - 0xE0) * 4096 + (b1 - 0x80) * 64 + (b2 - 0x80)), r2)
      else (replChar, rest)
    | _ => (replChar, rest)
  else if 0xF0 ≤ b ∧ b ≤ 0xF4 then
    match rest with
    | b1 :: b2 :: b3 :: r3 =>
      if (0x80 ≤ b1 ∧ b1 ≤ 0xBF) ∧ (0x80 ≤ b2 ∧ b2 ≤ 0xBF) ∧
          (0x80 ≤ b3 ∧ b3 ≤ 0xBF) ∧ (b = 0xF0 → 0x90 ≤ b1) ∧
          (b = 0xF4 → b1 ≤ 0x8F) then
        (Char.ofNat ((b - 0xF0) * 262144 + (b1 - 0x80) * 4096 +
          (b2 - 0x80) * 64 + (b3 - 0x80)), r3)
      else (replChar, rest)
    | _ => (replChar, rest)
  else (replChar, rest)

theorem utf8Step_length (b : Nat) (rest : List Nat) :
    (utf8Step b rest).2.length ≤ rest.length := by
  unfold utf8Step
  split_ifs
  · simp
  · cases rest with
    | nil => simp
    | cons b1 r1 => dsimp only; split <;> simp
  · cases rest with
    | nil => simp
    | cons b1 t1 =>
      cases t1 with
      | nil => simp
      | cons b2 r2 =>
        dsimp only; split
        · simp; omega
        · simp
  · cases rest with
    | nil => simp
    | cons b1 t1 =>
      cases t1 with
      | nil => simp
      | cons b2 t2 =>
        cases t2 with
        | nil => simp
        | cons b3 r3 =>
          dsimp only; split
          · simp; omega
          · simp
  · simp

/-- Fuel-indexed UTF-8 decoding loop; each step consumes at least one byte,
so fuel equal to the byte count always suffices
(`utf8DecodeAux_fuel`). -/
def utf8DecodeAux : Nat → List Nat → List Char
  | _, [] => []
  | 0, _ :: _ => []
  | fuel + 1, b :: rest =>
    (utf8Step b rest).1 :: utf8DecodeAux fuel (utf8Step b rest).2

/-- Python `bytes.decode('utf-8', errors='replace')`, as a character
list. -/
def utf8DecodeReplace (l : List Nat) : List Char := utf8DecodeAux l.length l

theorem utf8DecodeAux_fuel (fuel : Nat) :
    ∀ l : List Nat, l.length ≤ fuel → utf8DecodeAux fuel l = utf8DecodeReplace l := by
  induction fuel using Nat.strong_induction_on with
  | _ fuel ih =>
    intro l hl
    cases l with
    | nil => cases fuel <;> rfl
    | cons b rest =>
      cases fuel with
      | zero => simp at hl
      | succ f =>
        have hstep := utf8Step_length b rest
        have hlen : rest.length ≤ f := by simp at hl; omega
        have h1 : utf8DecodeAux f (utf8Step b rest).2 =
            utf8DecodeReplace (utf8Step b rest).2 :=
          ih f (Nat.lt_succ_self f) _ (le_trans hstep hlen)
        have h2 : utf8DecodeAux rest.length (utf8Step b rest).2 =
            utf8DecodeReplace (utf8Step b rest).2 :=
          ih rest.length (Nat.lt_succ_of_le hlen) _ hstep
        calc utf8DecodeAux (f + 1) (b :: rest)
            = (utf8Step b rest).1 :: utf8DecodeAux f (utf8Step b rest).2 := rfl
          _ = (utf8Step b rest).1 ::
              utf8DecodeAux rest.length (utf8Step b rest).2 := by rw [h1, h2]
          _ = utf8DecodeReplace (b :: rest) := rfl

/-- Unfolding equation: decoding a non-empty byte list decodes one
character with `utf8Step` and recurses on the remaining bytes. -/
theorem utf8DecodeReplace_cons (b : Nat) (rest : List Nat) :
    utf8DecodeReplace (b :: rest) =
      (utf8Step b rest).1 :: utf8DecodeReplace ((utf8Step b rest).2) := by
  calc utf8DecodeReplace (b :: rest)
      = (utf8Step b rest).1 ::
        utf8DecodeAux rest.length (utf8Step b rest).2 := rfl
    _ = _ := by rw [utf8DecodeAux_fuel rest.length _ (utf8Step_length b rest)]

/-- Python `bytes.decode('utf-8', errors='replace')` as a string. -/
def pyDecodeUtf8 (bs : List Nat) : String := String.mk (utf8DecodeReplace bs)

/-- Python `bytes.decode('ascii', errors='replace')`: a byte below 128 is
its own character, any other byte becomes U+FFFD. -/
def pyDecodeAscii (bs : List Nat) : String :=
  String.mk (bs.map (fun b => if b < 128 then Char.ofNat b else replChar))

/-- Bytes of `struct.pack('<H', n)` (little-endian). -/
def pack16bytes (n : Nat) : List Nat := [n % 256, n / 256]

/-- Bytes of `struct.pack('<I', n)` (little-endian). -/
def pack32bytes (n : Nat) : List Nat :=
  [n % 256, n / 256 % 256, n / 65536 % 256, n / 16777216 % 256]

/-- Model of `struct.pack('<H', n)`: `none` is the `struct.error` raised
when `n` does not fit in 16 bits. -/
def pack16 (n : Nat) : Option (List Nat) :=
  if n < 65536 then some (pack16bytes n) else none

/-- Model of `struct.pack('<I', n)`: `none` is the `struct.error` raised
when `n` does not fit in 32 bits. -/
def pack32 (n : Nat) : Option (List Nat) :=
  if n < 4294967296 then some (pack32bytes n) else none

/-- Model of packing one channel with `struct.pack('B', x)`: `none` is the
`struct.error` raised when `x` is outside `[0, 255]`. -/
def packColorByte (x : Int) : Option Nat :=
  if 0 ≤ x ∧ x < 256 then some x.toNat else none

/-- The 12 bytes written for one color by `CLSGenerator.save`:
block length 8, then R, G, B, A, then a trailing reserved zero. -/
def packColor (c : CLSColor) : Option (List Nat) :=
  match pack32 8, packColorByte c.r, packColorByte c.g, packColorByte c.b,
      packColorByte c.a, pack32 0 with
  | some bl, some r, some g, some b, some a, some tz =>
    some (bl ++ [r, g, b, a] ++ tz)
  | _, _, _, _, _, _ => none

/-- The byte sequence `CLSGenerator.save` writes to the file for a palette
with this name and color list; `none` models a `struct.error` raised while
packing (the file I/O itself is the external wrapper). -/
def saveBytes (name : String) (colors : List CLSColor) : Option (List Nat) :=
  let asciiName := asciiEncode name
  let utf8Name := utf8Encode name
  let headerLength := 2 + asciiName.length + 4 + 2 + utf8Name.length
  match pack16 256, pack32 headerLength, pack16 asciiName.length,
      pack32 0, pack16 utf8Name.length, pack32 4, pack32 colors.length,
      pack32 (colors.length * 12), colors.mapM packColor with
  | some ver, some hl, some al, some pad, some ul, some ch, some cc,
      some cdl, some blocks =>
    some ([0x53, 0x4C, 0x43, 0x43] ++ ver ++ hl ++ al ++ asciiName ++ pad
      ++ ul ++ utf8Name ++ ch ++ cc ++ cdl ++ blocks.flatten)
  | _, _, _, _, _, _, _, _, _ => none

/-- The two failure modes of `load_cls`: the explicit
`ValueError("Invalid .cls file: wrong signature")`, and the
`struct.error` raised by `struct.unpack` when the stream ends before a
required read completes. -/
inductive FormatError where
  | badSignature
  | truncated
deriving DecidableEq, Repr

deriving instance DecidableEq for Except

/-- Model of `struct.unpack('<H', f.read(2))`: fails like `struct.unpack`
when fewer than 2 bytes remain. -/
def unpack16 : List Nat → Except FormatError (Nat × List Nat)
  | b0 :: b1 :: rest => .ok (b0 + 256 * b1, rest)
  | _ => .error .truncated

/-- Model of `struct.unpack('<I', f.read(4))`. -/
def unpack32 : List Nat → Except FormatError (Nat × List Nat)
  | b0 :: b1 :: b2 :: b3 :: rest =>
    .ok (b0 + 256 * b1 + 65536 * b2 + 16777216 * b3, rest)
  | _ => .error .truncated

/-- Model of `struct.unpack('BBBB', f.read(4))`. -/
def unpackRGBA : List Nat → Except FormatError ((Nat × Nat × Nat × Nat) × List Nat)
  | r :: g :: b :: a :: rest => .ok ((r, g, b, a), rest)
  | _ => .error .truncated

/-- The color-reading loop of `load_cls`: for each of `n` colors read the
block length, the four channel bytes and the trailing reserved field, and
append the color through `add_color` (hence through the clamping
constructor). -/
def readColors : Nat → List Nat → Except FormatError (List CLSColor × List Nat)
  | 0, s => .ok ([], s)
  | n + 1, s =>
    match unpack32 s with
    | .error e => .error e
    | .ok (_blockLen, s1) =>
      match unpackRGBA s1 with
      | .error e => .error e
      | .ok ((r, g, b, a), s2) =>
        match unpack32 s2 with
        | .error e => .error e
        | .ok (_tz, s3) =>
          match readColors n s3 with
          | .error e => .error e
          | .ok (cs, s4) => .ok (CLSColor.make r g b a :: cs, s4)

/-- `load_cls` on an in-memory byte sequence: verify the `SLCC` signature,
read the version, header length, ASCII name, reserved padding, UTF-8 name,
channel count, color count and colors-section length, then the per-color
blocks; the palette name is the UTF-8 name when non-empty, else the ASCII
name (Python `utf8_name or ascii_name`). -/
def load_cls (bytes : List Nat) : Except FormatError CLSGenerator :=
  if bytes.take 4 = [0x53, 0x4C, 0x43, 0x43] then
    match unpack16 (bytes.drop 4) with
    | .error e => .error e
    | .ok (_version, s1) =>
      match unpack32 s1 with
      | .error e => .error e
      | .ok (_headerLength, s2) =>
        match unpack16 s2 with
        | .error e => .error e
        | .ok (asciiNameLen, s3) =>
          let asciiName := pyDecodeAscii (s3.take asciiNameLen)
          let s4 := (s3.drop asciiNameLen).drop 4
          match unpack16 s4 with
          | .error e => .error e
          | .ok (utf8NameLen, s5) =>
            let utf8Name := pyDecodeUtf8 (s5.take utf8NameLen)
            let s6 := s5.drop utf8NameLen
            match unpack32 s6 with
            | .error e => .error e
            | .ok (_channels, s7) =>
              match unpack32 s7 with
              | .error e => .error e
              | .ok (colorCount, s8) =>
                match unpack32 s8 with
                | .error e => .error e
                | .ok (_colorsDataLen, s9) =>
                  match readColors colorCount s9 with
                  | .error e => .error e
                  | .ok (cs, _) =>
                    .ok ⟨if utf8Name = "" then asciiName else utf8Name, cs⟩
  else .error .badSignature

/-! Basic facts about the packing and unpacking primitives. -/

theorem pack16_of_lt (n : Nat) (h : n < 65536) :
    pack16 n = some (pack16bytes n) := by
  simp [pack16, h]

theorem pack32_of_lt (n : Nat) (h : n < 4294967296) :
    pack32 n = some (pack32bytes n) := by
  simp [pack32, h]

theorem unpack16_pack (n : Nat) (rest : List Nat) :
    unpack16 (pack16bytes n ++ rest) = .ok (n, rest) := by
  simp only [pack16bytes, List.cons_append, List.nil_append, unpack16]
  congr 1
  simp only [Prod.mk.injEq, and_true]
  omega

theorem unpack32_pack (n : Nat) (h : n < 4294967296) (rest : List Nat) :
    unpack32 (pack32bytes n ++ rest) = .ok (n, rest) := by
  simp only [pack32bytes, List.cons_append, List.nil_append, unpack32]
  congr 1
  simp only [Prod.mk.injEq, and_true]
  omega

theorem unpack32_pack_any (n : Nat) (rest : List Nat) :
    unpack32 (pack32bytes n ++ rest) = .ok (n % 4294967296, rest) := by
  simp only [pack32bytes, List.cons_append, List.nil_append, unpack32]
  congr 1
  simp only [Prod.mk.injEq, and_true]
  omega

/-! Evaluation of `utf8Step` on the byte groups `utf8EncodeChar`
produces. -/

theorem utf8Step_one {b : Nat} (hb : b < 0x80) (rest : List Nat) :
    utf8Step b rest = (Char.ofNat b, rest) := by
  unfold utf8Step
  rw [if_pos hb]

theorem utf8Step_two {b b1 : Nat} (hb : 0xC2 ≤ b ∧ b ≤ 0xDF)
    (hb1 : 0x80 ≤ b1 ∧ b1 ≤ 0xBF) (rest : List Nat) :
    utf8Step b (b1 :: rest) =
      (Char.ofNat ((b - 0xC0) * 64 + (b1 - 0x80)), rest) := by
  unfold utf8Step
  rw [if_neg (by omega), if_pos hb]
  dsimp only
  rw [if_pos hb1]

theorem utf8Step_three {b b1 b2 : Nat} (hb : 0xE0 ≤ b ∧ b ≤ 0xEF)
    (hcond : (0x80 ≤ b1 ∧ b1 ≤ 0xBF) ∧ (0x80 ≤ b2 ∧ b2 ≤ 0xBF) ∧
      (b = 0xE0 → 0xA0 ≤ b1) ∧ (b = 0xED → b1 ≤ 0x9F))
    (rest : List Nat) :
    utf8Step b (b1 :: b2 :: rest) =
      (Char.ofNat ((b - 0xE0) * 4096 + (b1 - 0x80) * 64 + (b2 - 0x80)),
        rest) := by
  unfold utf8Step
  rw [if_neg (by omega), if_neg (by omega), if_pos hb]
  dsimp only
  rw [if_pos hcond]

theorem utf8Step_four {b b1 b2 b3 : Nat} (hb : 0xF0 ≤ b ∧ b ≤ 0xF4)
    (hcond : (0x80 ≤ b1 ∧ b1 ≤ 0xBF) ∧ (0x80 ≤ b2 ∧ b2 ≤ 0xBF) ∧
      (0x80 ≤ b3 ∧ b3 ≤ 0xBF) ∧ (b = 0xF0 → 0x90 ≤ b1) ∧
      (b = 0xF4 → b1 ≤ 0x8F))
    (rest : List Nat) :
    utf8Step b (b1 :: b2 :: b3 :: rest) =
      (Char.ofNat ((b - 0xF0) * 262144 + (b1 - 0x80) * 4096 +
        (b2 - 0x80) * 64 + (b3 - 0x80)), rest) := by
  unfold utf8Step
  rw [if_neg (by omega), if_neg (by omega), if_neg (by omega), if_pos hb]
  dsimp only
  rw [if_pos hcond]

/-- Decoding the UTF-8 encoding of one character in front of any byte tail
recovers that character: the heart of the UTF-8 round trip. -/
theorem utf8DecodeReplace_encodeChar (c : Char) (rest : List Nat) :
    utf8DecodeReplace (utf8EncodeChar c ++ rest) =
      c :: utf8DecodeReplace rest := by
  have hval : c.toNat < 0xd800 ∨ 0xdfff < c.toNat ∧ c.toNat < 0x110000 :=
    c.valid
  have hofNat : Char.ofNat c.toNat = c := Char.ofNat_toNat c
  by_cases h1 : c.toNat < 0x80
  · rw [show utf8EncodeChar c = [c.toNat] by simp [utf8EncodeChar, h1]]
    rw [List.cons_append, List.nil_append, utf8DecodeReplace_cons,
      utf8Step_one h1, hofNat]
  · by_cases h2 : c.toNat < 0x800
    · rw [show utf8EncodeChar c =
        [0xC0 + c.toNat / 64, 0x80 + c.toNat % 64] by
          simp [utf8EncodeChar, h1, h2]]
      rw [List.cons_append, List.cons_append, List.nil_append,
        utf8DecodeReplace_cons,
        utf8Step_two (by omega) (by omega) rest]
      rw [show (0xC0 + c.toNat / 64 - 0xC0) * 64 +
        (0x80 + c.toNat % 64 - 0x80) = c.toNat by omega, hofNat]
    · by_cases h3 : c.toNat < 0x10000
      · rw [show utf8EncodeChar c =
          [0xE0 + c.toNat / 4096, 0x80 + c.toNat / 64 % 64,
            0x80 + c.toNat % 64] by simp [utf8EncodeChar, h1, h2, h3]]
        rw [List.cons_append, List.cons_append, List.cons_append,
          List.nil_append, utf8DecodeReplace_cons,
          utf8Step_three (by omega) (by omega) rest]
        rw [show (0xE0 + c.toNat / 4096 - 0xE0) * 4096 +
          (0x80 + c.toNat / 64 % 64 - 0x80) * 64 +
          (0x80 + c.toNat % 64 - 0x80) = c.toNat by omega, hofNat]
      · rw [show utf8EncodeChar c =
          [0xF0 + c.toNat / 262144, 0x80 + c.toNat / 4096 % 64,
            0x80 + c.toNat / 64 % 64, 0x80 + c.toNat % 64] by
            simp [utf8EncodeChar, h1, h2, h3]]
        rw [List.cons_append, List.cons_append, List.cons_append,
          List.cons_append, List.nil_append, utf8DecodeReplace_cons,
          utf8Step_four (by omega) (by omega) rest]
        rw [show (0xF0 + c.toNat / 262144 - 0xF0) * 262144 +
          (0x80 + c.toNat / 4096 % 64 - 0x80) * 4096 +
          (0x80 + c.toNat / 64 % 64 - 0x80) * 64 +
          (0x80 + c.toNat % 64 - 0x80) = c.toNat by omega, hofNat]

/-- UTF-8 round trip on character lists. -/
theorem utf8DecodeReplace_encode_list (l : List Char) :
    utf8DecodeReplace ((l.map utf8EncodeChar).flatten) = l := by
  induction l with
  | nil => rfl
  | cons c cs ih =>
    simp only [List.map_cons, List.flatten_cons]
    rw [utf8DecodeReplace_encodeChar, ih]

/-- Python round trip `s.encode('utf-8').decode('utf-8', 'replace') = s`. -/
theorem pyDecodeUtf8_encode (s : String) : pyDecodeUtf8 (utf8Encode s) = s := by
  unfold pyDecodeUtf8 utf8Encode
  rw [utf8DecodeReplace_encode_list]

/-! Explicit normal form of the encoder's output. -/

/-- The 12 bytes `save` writes for an in-range color. -/
def colorBytes (c : CLSColor) : List Nat :=
  [8, 0, 0, 0, c.r.toNat, c.g.toNat, c.b.toNat, c.a.toNat, 0, 0, 0, 0]

/-- The full byte layout `save` produces when every pack succeeds:
signature, version 256, header length, ASCII name length and bytes,
reserved zero, UTF-8 name length and bytes, channel count 4, color count,
colors-section length, and the per-color blocks. -/
def encodedBytes (name : String) (colors : List CLSColor) : List Nat :=
  [0x53, 0x4C, 0x43, 0x43] ++ pack16bytes 256
    ++ pack32bytes (2 + (asciiEncode name).length + 4 + 2 +
        (utf8Encode name).length)
    ++ pack16bytes (asciiEncode name).length ++ asciiEncode name
    ++ pack32bytes 0
    ++ pack16bytes (utf8Encode name).length ++ utf8Encode name
    ++ pack32bytes 4 ++ pack32bytes colors.length
    ++ pack32bytes (colors.length * 12)
    ++ (colors.map colorBytes).flatten

theorem packColor_of_inRange {c : CLSColor} (h : c.InRange) :
    packColor c = some (colorBytes c) := by
  obtain ⟨h1, h2, h3, h4, h5, h6, h7, h8⟩ := h
  unfold packColor packColorByte
  rw [pack32_of_lt 8 (by norm_num), if_pos ⟨h1, by omega⟩,
    if_pos ⟨h3, by omega⟩, if_pos ⟨h5, by omega⟩, if_pos ⟨h7, by omega⟩]
  rfl

theorem mapM_packColor {colors : List CLSColor}
    (h : ∀ c ∈ colors, c.InRange) :
    colors.mapM packColor = some (colors.map colorBytes) := by
  induction colors with
  | nil => rfl
  | cons c cs ih =>
    rw [List.mapM_cons, packColor_of_inRange (h c (by simp)),
      ih (fun d hd => h d (by simp [hd]))]
    rfl

/-- Under the `struct.pack` range conditions, `save` succeeds and produces
exactly the `encodedBytes` layout. -/
theorem saveBytes_of {name : String} {colors : List CLSColor}
    (ha : (asciiEncode name).length < 65536)
    (hu : (utf8Encode name).length < 65536)
    (hc : colors.length * 12 < 4294967296)
    (hcr : ∀ c ∈ colors, c.InRange) :
    saveBytes name colors = some (encodedBytes name colors) := by
  unfold saveBytes
  dsimp only
  rw [pack16_of_lt 256 (by norm_num),
    pack32_of_lt (2 + (asciiEncode name).length + 4 + 2 +
      (utf8Encode name).length) (by omega),
    pack16_of_lt (asciiEncode name).length ha,
    pack32_of_lt 0 (by norm_num),
    pack16_of_lt (utf8Encode name).length hu,
    pack32_of_lt 4 (by norm_num),
    pack32_of_lt colors.length (by omega),
    pack32_of_lt (colors.length * 12) hc,
    mapM_packColor hcr]
  rfl

/-! Decoding the encoder's output. -/

theorem make_toNat_of_inRange {c : CLSColor} (h : c.InRange) :
    CLSColor.make c.r.toNat c.g.toNat c.b.toNat c.a.toNat = c := by
  obtain ⟨h1, h2, h3, h4, h5, h6, h7, h8⟩ := h
  cases c with
  | mk r g b a =>
    simp only [CLSColor.make, clamp, CLSColor.mk.injEq] at *
    refine ⟨by omega, by omega, by omega, by omega⟩

theorem readColors_pack (colors : List CLSColor)
    (hcr : ∀ c ∈ colors, c.InRange) (rest : List Nat) :
    readColors colors.length ((colors.map colorBytes).flatten ++ rest) =
      .ok (colors, rest) := by
  induction colors with
  | nil => simp [readColors]
  | cons c cs ih =>
    have hc := hcr c (by simp)
    simp only [List.map_cons, List.flatten_cons, List.length_cons,
      List.append_assoc, colorBytes, List.cons_append, List.nil_append]
    rw [readColors]
    simp only [unpack32, unpackRGBA]
    rw [ih (fun d hd => hcr d (by simp [hd]))]
    rw [make_toNat_of_inRange hc]

/-- Decoding the encoder's explicit output recovers the palette exactly. -/
theorem load_encodedBytes (name : String) (colors : List CLSColor)
    (hN : colors.length < 4294967296)
    (hcr : ∀ c ∈ colors, c.InRange) :
    load_cls (encodedBytes name colors) = .ok ⟨name, colors⟩ := by
  unfold load_cls encodedBytes
  simp only [List.append_assoc]
  rw [List.take_left' (show ([83, 76, 67, 67] : List Nat).length = 4 from rfl),
    List.drop_left' (show ([83, 76, 67, 67] : List Nat).length = 4 from rfl),
    if_pos rfl, unpack16_pack 256]
  dsimp only
  rw [unpack32_pack_any (2 + (asciiEncode name).length + 4 + 2 +
    (utf8Encode name).length)]
  dsimp only
  rw [unpack16_pack (asciiEncode name).length]
  dsimp only
  rw [List.take_left, List.drop_left,
    List.drop_left' (show (pack32bytes 0).length = 4 from rfl),
    unpack16_pack (utf8Encode name).length]
  dsimp only
  rw [List.take_left, List.drop_left, pyDecodeUtf8_encode,
    unpack32_pack_any 4]
  dsimp only
  rw [unpack32_pack colors.length hN]
  dsimp only
  rw [unpack32_pack_any (colors.length * 12)]
  dsimp only
  rw [show ((colors.map colorBytes).flatten : List Nat) =
    (colors.map colorBytes).flatten ++ [] from (List.append_nil _).symm,
    readColors_pack colors hcr []]
  dsimp only
  by_cases hn : name = ""
  · subst hn
    rw [if_pos rfl]
    rfl
  · rw [if_neg hn]

/-! Inversion: what a successful `save` implies about its inputs. -/

theorem pack16_eq_some {n : Nat} {l : List Nat} (h : pack16 n = some l) :
    n < 65536 ∧ l = pack16bytes n := by
  unfold pack16 at h
  split_ifs at h with hc
  exact ⟨hc, (Option.some.inj h).symm⟩

theorem pack32_eq_some {n : Nat} {l : List Nat} (h : pack32 n = some l) :
    n < 4294967296 ∧ l = pack32bytes n := by
  unfold pack32 at h
  split_ifs at h with hc
  exact ⟨hc, (Option.some.inj h).symm⟩

theorem packColorByte_eq_some {x : Int} {y : Nat}
    (h : packColorByte x = some y) : 0 ≤ x ∧ x ≤ 255 ∧ y = x.toNat := by
  unfold packColorByte at h
  split_ifs at h with hc
  exact ⟨hc.1, by omega, (Option.some.inj h).symm⟩

theorem packColor_eq_some {c : CLSColor} {l : List Nat}
    (h : packColor c = some l) : c.InRange ∧ l = colorBytes c := by
  unfold packColor at h
  split at h
  · rename_i bl r g b a tz hbl hr hg hb ha2 htz
    obtain ⟨hr1, hr2, hr3⟩ := packColorByte_eq_some hr
    obtain ⟨hg1, hg2, hg3⟩ := packColorByte_eq_some hg
    obtain ⟨hb1, hb2, hb3⟩ := packColorByte_eq_some hb
    obtain ⟨ha1, hA2, ha3⟩ := packColorByte_eq_some ha2
    have hbl2 : bl = pack32bytes 8 :=
      Option.some.inj (hbl.symm.trans (pack32_of_lt 8 (by norm_num)))
    have htz2 : tz = pack32bytes 0 :=
      Option.some.inj (htz.symm.trans (pack32_of_lt 0 (by norm_num)))
    refine ⟨⟨hr1, hr2, hg1, hg2, hb1, hb2, ha1, hA2⟩, ?_⟩
    rw [← Option.some.inj h, hbl2, htz2, hr3, hg3, hb3, ha3]
    rfl
  · exact Option.noConfusion h

theorem mapM_packColor_inv :
    ∀ {colors : List CLSColor} {bl : List (List Nat)},
      colors.mapM packColor = some bl →
      (∀ c ∈ colors, c.InRange) ∧ bl = colors.map colorBytes := by
  intro colors
  induction colors with
  | nil =>
    intro bl h
    simp only [List.mapM_nil, pure, Option.some.injEq] at h
    exact ⟨by simp, h.symm⟩
  | cons c cs ih =>
    intro bl h
    rw [List.mapM_cons] at h
    cases hx : packColor c with
    | none => rw [hx] at h; simp at h
    | some x =>
      rw [hx] at h
      cases hxs : cs.mapM packColor with
      | none => rw [hxs] at h; simp at h
      | some xs =>
        rw [hxs] at h
        simp at h
        obtain ⟨hcr, hx2⟩ := packColor_eq_some hx
        obtain ⟨hcsr, hxs2⟩ := ih hxs
        refine ⟨?_, ?_⟩
        · intro d hd
          rcases List.mem_cons.mp hd with h1 | h2
          · rw [h1]; exact hcr
          · exact hcsr d h2
        · rw [← h, hx2, hxs2]
          rfl

/-- A successful `save` forces all the `struct.pack` range conditions and
fixes the output to the explicit layout. -/
theorem saveBytes_some_inv {name : String} {colors : List CLSColor}
    {bytes : List Nat} (h : saveBytes name colors = some bytes) :
    (asciiEncode name).length < 65536 ∧ (utf8Encode name).length < 65536 ∧
    colors.length * 12 < 4294967296 ∧ (∀ c ∈ colors, c.InRange) ∧
    bytes = encodedBytes name colors := by
  unfold saveBytes at h
  dsimp only at h
  split at h
  · rename_i ver hl al pad ul ch cc cdl blocks hv hh hal hpad hul hch hcc
      hcdl hblocks
    obtain ⟨ha1, hal2⟩ := pack16_eq_some hal
    obtain ⟨hu1, hul2⟩ := pack16_eq_some hul
    obtain ⟨hc1, hcdl2⟩ := pack32_eq_some hcdl
    obtain ⟨hcr1, hbl2⟩ := mapM_packColor_inv hblocks
    have hv2 : ver = pack16bytes 256 :=
      Option.some.inj (hv.symm.trans (pack16_of_lt 256 (by norm_num)))
    obtain ⟨hh1, hh2⟩ := pack32_eq_some hh
    have hpad2 : pad = pack32bytes 0 :=
      Option.some.inj (hpad.symm.trans (pack32_of_lt 0 (by norm_num)))
    have hch2 : ch = pack32bytes 4 :=
      Option.some.inj (hch.symm.trans (pack32_of_lt 4 (by norm_num)))
    obtain ⟨hcc1, hcc2⟩ := pack32_eq_some hcc
    refine ⟨ha1, hu1, hc1, hcr1, ?_⟩
    rw [← Option.some.inj h, hv2, hh2, hal2, hpad2, hul2, hch2, hcc2,
      hcdl2, hbl2]
    rfl
  · exact Option.noConfusion h

/-! Truncated streams: how the readers behave on a `take`-prefix. -/

theorem take_append_ge (x y : List Nat) (k : Nat) (h : x.length ≤ k) :
    (x ++ y).take k = x ++ y.take (k - x.length) := by
  rcases Nat.exists_eq_add_of_le h with ⟨m, rfl⟩
  rw [List.take_append]
  simp

theorem take_drop_field (x y : List Nat) (j : Nat) :
    ((x ++ y).take j).drop x.length = y.take (j - x.length) := by
  rw [List.drop_take, List.drop_left]

theorem drop_take_cons4 (a b c d : Nat) (t : List Nat) (p : Nat) :
    ((a :: b :: c :: d :: t).take p).drop 4 = t.take (p - 4) := by
  rw [List.drop_take]
  simp

theorem unpack16_take (b0 b1 : Nat) (t : List Nat) (k : Nat) :
    unpack16 ((b0 :: b1 :: t).take k) =
      if k < 2 then .error .truncated
      else .ok (b0 + 256 * b1, t.take (k - 2)) := by
  match k with
  | 0 => rfl
  | 1 => rfl
  | k + 2 =>
    rw [if_neg (by omega)]
    simp [unpack16]

theorem unpack32_take (b0 b1 b2 b3 : Nat) (t : List Nat) (k : Nat) :
    unpack32 ((b0 :: b1 :: b2 :: b3 :: t).take k) =
      if k < 4 then .error .truncated
      else .ok (b0 + 256 * b1 + 65536 * b2 + 16777216 * b3,
        t.take (k - 4)) := by
  match k with
  | 0 => rfl
  | 1 => rfl
  | 2 => rfl
  | 3 => rfl
  | k + 4 =>
    rw [if_neg (by omega)]
    simp [unpack32]

theorem unpackRGBA_take (b0 b1 b2 b3 : Nat) (t : List Nat) (k : Nat) :
    unpackRGBA ((b0 :: b1 :: b2 :: b3 :: t).take k) =
      if k < 4 then .error .truncated
      else .ok ((b0, b1, b2, b3), t.take (k - 4)) := by
  match k with
  | 0 => rfl
  | 1 => rfl
  | 2 => rfl
  | 3 => rfl
  | k + 4 =>
    rw [if_neg (by omega)]
    simp [unpackRGBA]

theorem length_flatten_colorBytes (colors : List CLSColor) :
    ((colors.map colorBytes).flatten).length = 12 * colors.length := by
  induction colors with
  | nil => rfl
  | cons c cs ih =>
    simp only [List.map_cons, List.flatten_cons, List.length_append, ih,
      List.length_cons]
    have : (colorBytes c).length = 12 := rfl
    omega

theorem encodedBytes_length (name : String) (colors : List CLSColor) :
    (encodedBytes name colors).length =
      30 + (asciiEncode name).length + (utf8Encode name).length +
        12 * colors.length := by
  simp only [encodedBytes, List.length_append, length_flatten_colorBytes,
    pack16bytes, pack32bytes, List.length_cons, List.length_nil]
  omega

/-- A colors section cut off before its 12·N bytes are complete makes the
reading loop fail with a truncation error. -/
theorem readColors_take (colors : List CLSColor) (j : Nat)
    (hj : j < 12 * colors.length) :
    readColors colors.length (((colors.map colorBytes).flatten).take j) =
      .error .truncated := by
  induction colors generalizing j with
  | nil => simp at hj
  | cons c cs ih =>
    simp only [List.map_cons, List.flatten_cons, List.length_cons]
    simp only [colorBytes, List.cons_append, List.nil_append]
    rw [readColors]
    rw [unpack32_take _ _ _ _ _ j]
    by_cases h4 : j < 4
    · rw [if_pos h4]
    · rw [if_neg h4]
      dsimp only
      rw [unpackRGBA_take _ _ _ _ _ (j - 4)]
      by_cases h8 : j - 4 < 4
      · rw [if_pos h8]
      · rw [if_neg h8]
        dsimp only
        rw [unpack32_take _ _ _ _ _ (j - 4 - 4)]
        by_cases h12 : j - 4 - 4 < 4
        · rw [if_pos h12]
        · rw [if_neg h12]
          dsimp only
          rw [ih (j - 4 - 4 - 4) (by simp only [List.length_cons] at hj; omega)]

theorem take_sig (y : List Nat) (k : Nat) (h : 4 ≤ k) :
    (([83, 76, 67, 67] : List Nat) ++ y).take k =
      [83, 76, 67, 67] ++ y.take (k - 4) := by
  have h2 := take_append_ge [83, 76, 67, 67] y k (by simpa using h)
  simpa using h2

/-- Every strict prefix of an encoded buffer that still carries the
signature makes `load_cls` fail with a truncation error. -/
theorem load_take_encodedBytes (name : String) (colors : List CLSColor)
    (hN : colors.length < 4294967296)
    (k : Nat) (h4 : 4 ≤ k) (hk : k < (encodedBytes name colors).length) :
    load_cls ((encodedBytes name colors).take k) = .error .truncated := by
  rw [encodedBytes_length] at hk
  unfold load_cls encodedBytes
  simp only [List.append_assoc]
  rw [take_sig _ k h4,
    List.take_left' (show ([83, 76, 67, 67] : List Nat).length = 4 from rfl),
    List.drop_left' (show ([83, 76, 67, 67] : List Nat).length = 4 from rfl),
    if_pos rfl]
  simp only [pack16bytes, pack32bytes, List.cons_append, List.nil_append]
  rw [unpack16_take _ _ _ (k - 4)]
  by_cases h2 : k - 4 < 2
  · rw [if_pos h2]
  · rw [if_neg h2]
    dsimp only
    rw [unpack32_take _ _ _ _ _ (k - 4 - 2)]
    by_cases h6 : k - 4 - 2 < 4
    · rw [if_pos h6]
    · rw [if_neg h6]
      dsimp only
      rw [unpack16_take _ _ _ (k - 4 - 2 - 4)]
      by_cases h8 : k - 4 - 2 - 4 < 2
      · rw [if_pos h8]
      · rw [if_neg h8]
        dsimp only
        rw [Nat.mod_add_div (asciiEncode name).length 256,
          take_drop_field (asciiEncode name) _ _, drop_take_cons4,
          unpack16_take _ _ _
            (k - 4 - 2 - 4 - 2 - (asciiEncode name).length - 4)]
        by_cases h10 :
            k - 4 - 2 - 4 - 2 - (asciiEncode name).length - 4 < 2
        · rw [if_pos h10]
        · rw [if_neg h10]
          dsimp only
          rw [Nat.mod_add_div (utf8Encode name).length 256,
            take_drop_field (utf8Encode name) _ _,
            unpack32_take _ _ _ _ _
              (k - 4 - 2 - 4 - 2 - (asciiEncode name).length - 4 - 2 -
                (utf8Encode name).length)]
          by_cases h12 :
              k - 4 - 2 - 4 - 2 - (asciiEncode name).length - 4 - 2 -
                (utf8Encode name).length < 4
          · rw [if_pos h12]
          · rw [if_neg h12]
            dsimp only
            rw [unpack32_take _ _ _ _ _
              (k - 4 - 2 - 4 - 2 - (asciiEncode name).length - 4 - 2 -
                (utf8Encode name).length - 4)]
            by_cases h14 :
                k - 4 - 2 - 4 - 2 - (asciiEncode name).length - 4 - 2 -
                  (utf8Encode name).length - 4 < 4
            · rw [if_pos h14]
            · rw [if_neg h14]
              dsimp only
              rw [show colors.length % 256 +
                  256 * (colors.length / 256 % 256) +
                  65536 * (colors.length / 65536 % 256) +
                  16777216 * (colors.length / 16777216 % 256) =
                  colors.length from by omega]
              rw [unpack32_take _ _ _ _ _
                (k - 4 - 2 - 4 - 2 - (asciiEncode name).length - 4 - 2 -
                  (utf8Encode name).length - 4 - 4)]
              by_cases h16 :
                  k - 4 - 2 - 4 - 2 - (asciiEncode name).length - 4 - 2 -
                    (utf8Encode name).length - 4 - 4 < 4
              · rw [if_pos h16]
              · rw [if_neg h16]
                dsimp only
                rw [readColors_take colors _ (by omega)]

/-! Error classification: the only failure after a good signature is
truncation. -/

theorem unpack16_error {s : List Nat} {e : FormatError}
    (h : unpack16 s = .error e) : e = .truncated := by
  match s with
  | [] => exact (Except.error.inj h).symm
  | [b0] => exact (Except.error.inj h).symm
  | b0 :: b1 :: t => exact Except.noConfusion h

theorem unpack32_error {s : List Nat} {e : FormatError}
    (h : unpack32 s = .error e) : e = .truncated := by
  match s with
  | [] => exact (Except.error.inj h).symm
  | [b0] => exact (Except.error.inj h).symm
  | [b0, b1] => exact (Except.error.inj h).symm
  | [b0, b1, b2] => exact (Except.error.inj h).symm
  | b0 :: b1 :: b2 :: b3 :: t => exact Except.noConfusion h

theorem unpackRGBA_error {s : List Nat} {e : FormatError}
    (h : unpackRGBA s = .error e) : e = .truncated := by
  match s with
  | [] => exact (Except.error.inj h).symm
  | [b0] => exact (Except.error.inj h).symm
  | [b0, b1] => exact (Except.error.inj h).symm
  | [b0, b1, b2] => exact (Except.error.inj h).symm
  | b0 :: b1 :: b2 :: b3 :: t => exact Except.noConfusion h

theorem readColors_error :
    ∀ (n : Nat) (s : List Nat) (e : FormatError),
      readColors n s = .error e → e = .truncated := by
  intro n
  induction n with
  | zero => intro s e h; exact Except.noConfusion h
  | succ n ih =>
    intro s e h
    rw [readColors] at h
    split at h
    · rename_i e2 heq
      rw [← Except.error.inj h]
      exact unpack32_error heq
    · split at h
      · rename_i e2 heq
        rw [← Except.error.inj h]
        exact unpackRGBA_error heq
      · split at h
        · rename_i e2 heq
          rw [← Except.error.inj h]
          exact unpack32_error heq
        · split at h
          · rename_i e2 heq
            rw [← Except.error.inj h]
            exact ih _ _ heq
          · exact Except.noConfusion h

/-- With a good signature, every `load_cls` failure is a truncation. -/
theorem load_cls_error_truncated {bytes : List Nat} {e : FormatError}
    (hsig : bytes.take 4 = [0x53, 0x4C, 0x43, 0x43])
    (h : load_cls bytes = .error e) : e = .truncated := by
  unfold load_cls at h
  rw [if_pos hsig] at h
  split at h
  · rename_i e2 heq
    rw [← Except.error.inj h]
    exact unpack16_error heq
  · split at h
    · rename_i e2 heq
      rw [← Except.error.inj h]
      exact unpack32_error heq
    · split at h
      · rename_i e2 heq
        rw [← Except.error.inj h]
        exact unpack16_error heq
      · dsimp only at h
        split at h
        · rename_i e2 heq
          rw [← Except.error.inj h]
          exact unpack16_error heq
        · split at h
          · rename_i e2 heq
            rw [← Except.error.inj h]
            exact unpack32_error heq
          · split at h
            · rename_i e2 heq
              rw [← Except.error.inj h]
              exact unpack32_error heq
            · split at h
              · rename_i e2 heq
                rw [← Except.error.inj h]
                exact unpack32_error heq
              · split at h
                · rename_i e2 heq
                  rw [← Except.error.inj h]
                  exact readColors_error _ _ _ heq
                · exact Except.noConfusion h

/-! The clamping constructor establishes the channel invariant, and every
path that inserts a color goes through it. -/

theorem make_inRange (r g b a : Int) : (CLSColor.make r g b a).InRange := by
  unfold CLSColor.make CLSColor.InRange clamp
  refine ⟨?_, ?_, ?_, ?_, ?_, ?_, ?_, ?_⟩ <;> simp

theorem readColors_ok_inRange :
    ∀ (n : Nat) (s : List Nat) (cs : List CLSColor) (s2 : List Nat),
      readColors n s = .ok (cs, s2) → ∀ c ∈ cs, c.InRange := by
  intro n
  induction n with
  | zero =>
    intro s cs s2 h c hc
    rw [readColors] at h
    cases Except.ok.inj h
    simp at hc
  | succ n ih =>
    intro s cs s2 h c hc
    rw [readColors] at h
    split at h
    · exact Except.noConfusion h
    · split at h
      · exact Except.noConfusion h
      · split at h
        · exact Except.noConfusion h
        · split at h
          · exact Except.noConfusion h
          · rename_i cs2 s4 heq
            cases Except.ok.inj h
            rcases List.mem_cons.mp hc with h1 | h2
            · rw [h1]; exact make_inRange _ _ _ _
            · exact ih _ _ _ heq c h2

theorem load_cls_ok_inRange {bytes : List Nat} {gen : CLSGenerator}
    (h : load_cls bytes = .ok gen) : ∀ c ∈ gen.colors, c.InRange := by
  unfold load_cls at h
  split_ifs at h with hsig
  · split at h
    · exact Except.noConfusion h
    · split at h
      · exact Except.noConfusion h
      · split at h
        · exact Except.noConfusion h
        · dsimp only at h
          split at h
          · exact Except.noConfusion h
          · split at h
            · exact Except.noConfusion h
            · split at h
              · exact Except.noConfusion h
              · split at h
                · exact Except.noConfusion h
                · split at h
                  · exact Except.noConfusion h
                  · rename_i cs s9 heq
                    cases Except.ok.inj h
                    exact readColors_ok_inRange _ _ _ _ heq

theorem add_color_inRange (gen : CLSGenerator) (r g b a : Int)
    (hg : ∀ c ∈ gen.colors, c.InRange) :
    ∀ c ∈ (gen.add_color r g b a).colors, c.InRange := by
  intro c hc
  unfold CLSGenerator.add_color at hc
  dsimp only at hc
  rcases List.mem_append.mp hc with h1 | h2
  · exact hg c h1
  · rw [List.mem_singleton.mp h2]
    exact make_inRange r g b a

theorem foldl_add_color_inRange :
    ∀ (cs : List (Int × Int × Int)) (gen : CLSGenerator),
      (∀ c ∈ gen.colors, c.InRange) →
      ∀ c ∈ (cs.foldl (fun acc t => acc.add_color t.1 t.2.1 t.2.2)
        gen).colors, c.InRange := by
  intro cs
  induction cs with
  | nil => intro gen hg; simpa using hg
  | cons t ts ih =>
    intro gen hg
    rw [List.foldl_cons]
    exact ih _ (add_color_inRange gen t.1 t.2.1 t.2.2 255 hg)

theorem add_color_from_hex_inRange (gen : CLSGenerator) (hex : String)
    (a : Int) (gen2 : CLSGenerator)
    (hg : ∀ c ∈ gen.colors, c.InRange)
    (h : gen.add_color_from_hex hex a = some gen2) :
    ∀ c ∈ gen2.colors, c.InRange := by
  unfold CLSGenerator.add_color_from_hex at h
  split at h
  · split at h
    · cases Option.some.inj h
      exact add_color_inRange _ _ _ _ _ hg
    · exact Option.noConfusion h
  · split at h
    · cases Option.some.inj h
      exact add_color_inRange _ _ _ _ _ hg
    · exact Option.noConfusion h
  · cases Option.some.inj h
    exact hg

/-! Length of encodings of replicated ASCII characters, for concrete
oversized-name inputs. -/

theorem asciiEncode_replicate (n : Nat) (c : Char) (h : c.toNat < 128) :
    asciiEncode (String.mk (List.replicate n c)) =
      List.replicate n c.toNat := by
  unfold asciiEncode
  show (List.replicate n c).map _ = _
  rw [List.map_replicate, if_pos h]

/-- C1: the claim as frozen fails: a palette with zero colors (within the
0..10000 bound) and a name of 65536 identical ASCII characters cannot be
encoded at all — `struct.pack('<H', len(ascii_name))` raises for a name
length that does not fit 16 bits — so no byte sequence exists whose decode
could return the palette. -/
theorem save_load_roundtrip_counterexample :
    saveBytes (String.mk (List.replicate 65536 'a')) [] = none ∧
    ¬ ∃ bytes,
      saveBytes (String.mk (List.replicate 65536 'a')) [] = some bytes ∧
      load_cls bytes = .ok ⟨String.mk (List.replicate 65536 'a'), []⟩ := by
  have hlen : (asciiEncode (String.mk (List.replicate 65536 'a'))).length =
      65536 := by
    rw [asciiEncode_replicate 65536 'a' (by decide), List.length_replicate]
  have hnone : saveBytes (String.mk (List.replicate 65536 'a')) [] = none := by
    cases h : saveBytes (String.mk (List.replicate 65536 'a')) [] with
    | none => rfl
    | some bytes =>
      obtain ⟨ha, -, -, -, -⟩ := saveBytes_some_inv h
      rw [hlen] at ha
      exact absurd ha (by omega)
  refine ⟨hnone, ?_⟩
  rintro ⟨bytes, hb, -⟩
  rw [hnone] at hb
  exact Option.noConfusion hb

/-- C1 (amended): for every palette with at most 10000 colors whose name's
ASCII and UTF-8 encodings each fit the 16-bit length fields (all palettes
with names under 21846 characters do), saving succeeds and loading the
saved bytes returns the palette exactly — the name via the UTF-8 round
trip, the colors element for element in order. -/
theorem save_load_roundtrip (name : String) (colors : List CLSColor)
    (hlen : colors.length ≤ 10000)
    (ha : (asciiEncode name).length ≤ 65535)
    (hu : (utf8Encode name).length ≤ 65535)
    (hcr : ∀ c ∈ colors, c.InRange) :
    ∃ bytes, saveBytes name colors = some bytes ∧
      load_cls bytes = .ok ⟨name, colors⟩ :=
  ⟨encodedBytes name colors,
    saveBytes_of (by omega) (by omega) (by omega) hcr,
    load_encodedBytes name colors (by omega) hcr⟩

theorem save_load_roundtrip_witness :
    ∃ bytes, saveBytes "Rainbow" [CLSColor.make 255 0 0 255] = some bytes ∧
      load_cls bytes = .ok ⟨"Rainbow", [CLSColor.make 255 0 0 255]⟩ :=
  save_load_roundtrip "Rainbow" [CLSColor.make 255 0 0 255] (by decide)
    (by decide) (by decide) (by decide)

/-- C2: the claim as frozen fails: `save` is not total in the name — for a
name of 70000 identical ASCII characters the 16-bit ASCII-name length
field cannot be packed and encoding fails. -/
theorem save_succeeds_counterexample :
    saveBytes (String.mk (List.replicate 70000 'b')) [] = none ∧
    ¬ ∃ bytes,
      saveBytes (String.mk (List.replicate 70000 'b')) [] = some bytes := by
  have hlen : (asciiEncode (String.mk (List.replicate 70000 'b'))).length =
      70000 := by
    rw [asciiEncode_replicate 70000 'b' (by decide), List.length_replicate]
  have hnone : saveBytes (String.mk (List.replicate 70000 'b')) [] = none := by
    cases h : saveBytes (String.mk (List.replicate 70000 'b')) [] with
    | none => rfl
    | some bytes =>
      obtain ⟨ha, -, -, -, -⟩ := saveBytes_some_inv h
      rw [hlen] at ha
      exact absurd ha (by omega)
  refine ⟨hnone, ?_⟩
  rintro ⟨bytes, hb⟩
  rw [hnone] at hb
  exact Option.noConfusion hb

/-- C2 (amended): `save` succeeds for every name and color sequence within
the `struct.pack` field widths: ASCII and UTF-8 name encodings of at most
65535 bytes each, a colors section of fewer than 2^32 bytes, and channels
in `[0, 255]` (which the clamping constructor guarantees). -/
theorem save_succeeds_under_pack_bounds (name : String)
    (colors : List CLSColor)
    (ha : (asciiEncode name).length ≤ 65535)
    (hu : (utf8Encode name).length ≤ 65535)
    (hc : colors.length * 12 < 4294967296)
    (hcr : ∀ c ∈ colors, c.InRange) :
    ∃ bytes, saveBytes name colors = some bytes :=
  ⟨encodedBytes name colors, saveBytes_of (by omega) (by omega) hc hcr⟩

theorem save_succeeds_under_pack_bounds_witness :
    ∃ bytes, saveBytes "Pastel Dreams" [CLSColor.make 255 179 186 255] =
      some bytes :=
  save_succeeds_under_pack_bounds "Pastel Dreams"
    [CLSColor.make 255 179 186 255] (by decide) (by decide) (by decide)
    (by decide)

/-- C3: encoding the palette named `Rainbow` with the single color
`(255, 0, 0, 255)` produces exactly the claimed bytes: `SLCC`, version
`00 01`, header length 22 little-endian, ASCII length 7 and `Rainbow`,
four zero bytes, UTF-8 length 7 and `Rainbow`, channel count 4, color
count 1, section length 12, block length 8, `FF 00 00 FF`, trailing
zero. -/
theorem save_rainbow_example_bytes :
    saveBytes "Rainbow" [CLSColor.make 255 0 0 255] =
      some [0x53, 0x4C, 0x43, 0x43, 0x00, 0x01, 22, 0, 0, 0, 7, 0,
        0x52, 0x61, 0x69, 0x6E, 0x62, 0x6F, 0x77, 0, 0, 0, 0, 7, 0,
        0x52, 0x61, 0x69, 0x6E, 0x62, 0x6F, 0x77, 0x04, 0, 0, 0,
        0x01, 0, 0, 0, 0x0C, 0, 0, 0, 0x08, 0, 0, 0,
        0xFF, 0x00, 0x00, 0xFF, 0x00, 0x00, 0x00, 0x00] := by
  decide

/-- C4: every byte sequence whose first four bytes are not `SLCC` — in
particular every sequence shorter than four bytes — is rejected by
`load_cls` with the bad-signature error, whatever follows. -/
theorem load_bad_signature (bytes : List Nat)
    (h : bytes.take 4 ≠ [0x53, 0x4C, 0x43, 0x43]) :
    load_cls bytes = .error .badSignature := by
  unfold load_cls
  rw [if_neg h]

theorem load_bad_signature_witness :
    (([1, 2, 3] : List Nat).take 4 ≠ [0x53, 0x4C, 0x43, 0x43]) ∧
    load_cls [1, 2, 3] = .error .badSignature :=
  ⟨by decide, load_bad_signature [1, 2, 3] (by decide)⟩

/-- C5: with a correct `SLCC` signature, decoding can only fail with the
truncation error (conjunct 1: error classification), and cutting any
encoded buffer strictly before its end — mid-header or mid-color-list —
does make decoding fail with the truncation error rather than return a
partial palette (conjunct 2). -/
theorem load_truncation :
    (∀ (bytes : List Nat) (e : FormatError),
      bytes.take 4 = [0x53, 0x4C, 0x43, 0x43] →
      load_cls bytes = .error e → e = .truncated) ∧
    (∀ (name : String) (colors : List CLSColor) (bytes : List Nat)
      (k : Nat),
      saveBytes name colors = some bytes → 4 ≤ k → k < bytes.length →
      load_cls (bytes.take k) = .error .truncated) := by
  constructor
  · intro bytes e hsig herr
    exact load_cls_error_truncated hsig herr
  · intro name colors bytes k hsave h4 hk
    obtain ⟨ha, hu, hc, hcr, rfl⟩ := saveBytes_some_inv hsave
    exact load_take_encodedBytes name colors (by omega) k h4 hk

theorem load_truncation_witness :
    FormatError.truncated = FormatError.truncated ∧
    load_cls ((encodedBytes "AB" [CLSColor.make 255 0 0 255]).take 30) =
      .error .truncated := by
  constructor
  · exact load_truncation.1 [83, 76, 67, 67] FormatError.truncated
      (by decide) (by decide)
  · have hsave : saveBytes "AB" [CLSColor.make 255 0 0 255] =
        some (encodedBytes "AB" [CLSColor.make 255 0 0 255]) := by decide
    exact load_truncation.2 "AB" [CLSColor.make 255 0 0 255] _ 30 hsave
      (by decide) (by decide)

/-- C6: the color constructor is total on integers and clamps every
channel into `[0, 255]`: a channel above 255 becomes 255, below 0 becomes
0, and an in-range value is kept unchanged. -/
theorem color_constructor_clamps (r g b a : Int) :
    (CLSColor.make r g b a).InRange ∧
    CLSColor.make r g b a =
      { r := if r < 0 then 0 else if r ≤ 255 then r else 255,
        g := if g < 0 then 0 else if g ≤ 255 then g else 255,
        b := if b < 0 then 0 else if b ≤ 255 then b else 255,
        a := if a < 0 then 0 else if a ≤ 255 then a else 255 } := by
  refine ⟨make_inRange r g b a, ?_⟩
  unfold CLSColor.make clamp
  simp only [CLSColor.mk.injEq]
  refine ⟨?_, ?_, ?_, ?_⟩ <;> (split_ifs <;> omega)

/-- C7: for a non-empty name of non-ASCII characters only, the ASCII name
field is one placeholder byte `?` (0x3F) per character while the UTF-8
field holds the exact encoding of the original text (its lossy decode is
the identity here), and any buffer `save` produces for such a palette
loads back with the original Unicode name — the decoder prefers the
non-empty UTF-8 name over the ASCII one. -/
theorem nonascii_name_codec (name : String) (colors : List CLSColor)
    (hne : name ≠ "") (hnon : ∀ c ∈ name.data, 128 ≤ c.toNat) :
    asciiEncode name = List.replicate name.data.length 63 ∧
    pyDecodeUtf8 (utf8Encode name) = name ∧
    pyDecodeUtf8 (utf8Encode name) ≠ "" ∧
    ∀ bytes, saveBytes name colors = some bytes →
      bytes = encodedBytes name colors ∧
      load_cls bytes = .ok ⟨name, colors⟩ := by
  refine ⟨?_, pyDecodeUtf8_encode name,
    by rw [pyDecodeUtf8_encode name]; exact hne, ?_⟩
  · have hall : ∀ b ∈ asciiEncode name, b = 63 := by
      intro b hb
      unfold asciiEncode at hb
      rcases List.mem_map.mp hb with ⟨c, hc, rfl⟩
      rw [if_neg (by have := hnon c hc; omega)]
    have h2 := List.eq_replicate_of_mem hall
    rwa [show (asciiEncode name).length = name.data.length from by
      unfold asciiEncode; rw [List.length_map]] at h2
  · intro bytes hsave
    obtain ⟨ha, hu, hc, hcr, rfl⟩ := saveBytes_some_inv hsave
    exact ⟨rfl, load_encodedBytes name colors (by omega) hcr⟩

theorem nonascii_name_codec_witness :
    asciiEncode "火山" = List.replicate "火山".data.length 63 ∧
    pyDecodeUtf8 (utf8Encode "火山") = "火山" ∧
    pyDecodeUtf8 (utf8Encode "火山") ≠ "" ∧
    encodedBytes "火山" [CLSColor.make 9 9 9 9] =
      encodedBytes "火山" [CLSColor.make 9 9 9 9] ∧
    load_cls (encodedBytes "火山" [CLSColor.make 9 9 9 9]) =
      .ok ⟨"火山", [CLSColor.make 9 9 9 9]⟩ := by
  have h := nonascii_name_codec "火山" [CLSColor.make 9 9 9 9] (by decide)
    (by decide)
  exact ⟨h.1, h.2.1, h.2.2.1, h.2.2.2 (encodedBytes "火山"
    [CLSColor.make 9 9 9 9]) (by decide)⟩

/-- C8: saving a palette with zero colors succeeds, the color-count field
and the colors-section length field are both the packed value 0 and no
color blocks follow, and loading that buffer returns the same name with an
empty color list. -/
theorem save_empty_palette (name : String)
    (ha : (asciiEncode name).length ≤ 65535)
    (hu : (utf8Encode name).length ≤ 65535) :
    ∃ bytes, saveBytes name [] = some bytes ∧
      bytes =
        [0x53, 0x4C, 0x43, 0x43] ++ pack16bytes 256
          ++ pack32bytes (2 + (asciiEncode name).length + 4 + 2 +
              (utf8Encode name).length)
          ++ pack16bytes (asciiEncode name).length ++ asciiEncode name
          ++ pack32bytes 0
          ++ pack16bytes (utf8Encode name).length ++ utf8Encode name
          ++ pack32bytes 4 ++ pack32bytes 0 ++ pack32bytes 0 ∧
      load_cls bytes = .ok ⟨name, []⟩ := by
  refine ⟨encodedBytes name [],
    saveBytes_of (by omega) (by omega) (by norm_num) (by simp), ?_,
    load_encodedBytes name [] (by norm_num) (by simp)⟩
  unfold encodedBytes
  simp

theorem save_empty_palette_witness :
    ∃ bytes, saveBytes "Test" [] = some bytes ∧
      bytes =
        [0x53, 0x4C, 0x43, 0x43] ++ pack16bytes 256
          ++ pack32bytes (2 + (asciiEncode "Test").length + 4 + 2 +
              (utf8Encode "Test").length)
          ++ pack16bytes (asciiEncode "Test").length ++ asciiEncode "Test"
          ++ pack32bytes 0
          ++ pack16bytes (utf8Encode "Test").length ++ utf8Encode "Test"
          ++ pack32bytes 4 ++ pack32bytes 0 ++ pack32bytes 0 ∧
      load_cls bytes = .ok ⟨"Test", []⟩ :=
  save_empty_palette "Test" (by decide) (by decide)

/-- C9: every path that inserts a color — `add_color`,
`add_color_from_hex`, `add_colors_from_list`, and a successful `load_cls`
— yields only colors with all four channels in `[0, 255]`, because each
goes through the clamping constructor; `clear` preserves the invariant
trivially. -/
theorem palette_ops_preserve_channel_invariant :
    (∀ (gen : CLSGenerator) (r g b a : Int),
      (∀ c ∈ gen.colors, c.InRange) →
      ∀ c ∈ (gen.add_color r g b a).colors, c.InRange) ∧
    (∀ (gen : CLSGenerator) (hex : String) (a : Int)
      (gen2 : CLSGenerator),
      (∀ c ∈ gen.colors, c.InRange) →
      gen.add_color_from_hex hex a = some gen2 →
      ∀ c ∈ gen2.colors, c.InRange) ∧
    (∀ (gen : CLSGenerator) (cs : List (Int × Int × Int)),
      (∀ c ∈ gen.colors, c.InRange) →
      ∀ c ∈ (gen.add_colors_from_list cs).colors, c.InRange) ∧
    (∀ (bytes : List Nat) (gen : CLSGenerator),
      load_cls bytes = .ok gen → ∀ c ∈ gen.colors, c.InRange) ∧
    (∀ gen : CLSGenerator, ∀ c ∈ gen.clear.colors, c.InRange) := by
  refine ⟨add_color_inRange, ?_, ?_, ?_, ?_⟩
  · intro gen hex a gen2 hg h
    exact add_color_from_hex_inRange gen hex a gen2 hg h
  · intro gen cs hg
    exact foldl_add_color_inRange cs gen hg
  · intro bytes gen h
    exact load_cls_ok_inRange h
  · intro gen c hc
    simp [CLSGenerator.clear] at hc

theorem palette_ops_preserve_channel_invariant_witness :
    ∀ c ∈ ((CLSGenerator.init "W").add_color 300 (-5) 7 255).colors,
      c.InRange :=
  palette_ops_preserve_channel_invariant.1 (CLSGenerator.init "W") 300 (-5)
    7 255 (by simp [CLSGenerator.init])

/-- C10: the claim as frozen fails: Python `lstrip('#')` strips every
leading `#`, not a single one, so `"##FF0000"` — whose length after
removing one leading `#` is 7, neither 6 nor 8 — is not ignored: both
hashes are stripped, `FF0000` parses, and a color is appended. -/
theorem hex_wrong_length_counterexample :
    ("##FF0000".data.drop 1).length ≠ 6 ∧
    ("##FF0000".data.drop 1).length ≠ 8 ∧
    (CLSGenerator.init "P").add_color_from_hex "##FF0000" 255 =
      some ⟨"P", [CLSColor.make 255 0 0 255]⟩ ∧
    (CLSGenerator.init "P").add_color_from_hex "##FF0000" 255 ≠
      some (CLSGenerator.init "P") := by
  decide

/-- C10 (amended): for every hex string whose length after stripping all
leading `#` characters is neither 6 nor 8, `add_color_from_hex` raises no
error and returns the palette completely unchanged. -/
theorem hex_wrong_length_leaves_palette_unchanged (gen : CLSGenerator)
    (hex : String) (a : Int)
    (h6 : (hex.data.dropWhile (fun c => c = '#')).length ≠ 6)
    (h8 : (hex.data.dropWhile (fun c => c = '#')).length ≠ 8) :
    gen.add_color_from_hex hex a = some gen := by
  unfold CLSGenerator.add_color_from_hex
  split
  · rename_i heq
    rw [heq] at h6
    simp at h6
  · rename_i heq
    rw [heq] at h8
    simp at h8
  · rfl

theorem hex_wrong_length_leaves_palette_unchanged_witness :
    (("XYZ".data.dropWhile (fun c => c = '#')).length ≠ 6) ∧
    (("XYZ".data.dropWhile (fun c => c = '#')).length ≠ 8) ∧
    (CLSGenerator.init "Q").add_color_from_hex "XYZ" 255 =
      some (CLSGenerator.init "Q") :=
  ⟨by decide, by decide,
    hex_wrong_length_leaves_palette_unchanged (CLSGenerator.init "Q") "XYZ"
      255 (by decide) (by decide)⟩
